import Mathlib

/-!
Shallow embedding of the training-trigger pipeline
(`src/udsink/train.py`, `src/connectors/prometheus.py`) and proofs of the
specification's testable properties over it.

Machine reals (Python floats) are modelled as rationals; time instants are
naturals (seconds); the Redis marker store is an association list from key
to absolute expiry instant.
-/

namespace Numalogic

/-! ### Data model: training request payloads -/

/-- `TrainerPayload`: `uuid`, `composite_keys`, `metric` (src/entities). -/
structure TrainerPayload where
  uuid : String
  composite_keys : List String
  metric : String
deriving DecidableEq, Repr

/-! ### Dedup gate (`Train._is_new_request`, train.py lines 91-99)

The Redis store is modelled as an association list from key to absolute
expiry instant; `get` observes a key as present while `now` is strictly
before its expiry (SETEX with TTL `e` at instant `t` expires the key at
`t + e`). -/

abbrev RStore := List (String × Nat)

/-- Redis `GET`: the stored value (modelled by its expiry instant) if the
key is present and unexpired at `now`. -/
def storeGet (s : RStore) (now : Nat) (k : String) : Option Nat :=
  match s.find? (fun kv => kv.1 == k) with
  | some kv => if now < kv.2 then some kv.2 else none
  | none => none

/-- Redis `SETEX key ttl value`: (re)bind the key with expiry `now + ttl`. -/
def storeSetex (s : RStore) (now ttl : Nat) (k : String) : RStore :=
  (k, now + ttl) :: s.filter (fun kv => ¬ kv.1 == k)

/-- `_ckeys = ":".join(payload.composite_keys + [payload.metric])`;
`r_key = f"train::{_ckeys}"`. -/
def dedupKey (p : TrainerPayload) : String :=
  "train::" ++ String.intercalate ":" (p.composite_keys ++ [p.metric])

/-- `Train._is_new_request`: GET the marker; if present return `false`
without writing; otherwise SETEX it with TTL `expiry` and return `true`.
`expiry` models the `REQUEST_EXPIRY` environment value (default 300). -/
def is_new_request (expiry : Nat) (s : RStore) (now : Nat) (p : TrainerPayload) :
    Bool × RStore :=
  let k := dedupKey p
  match storeGet s now k with
  | some _ => (false, s)
  | none => (true, storeSetex s now expiry k)

/-- Sequential processing of a list of timestamped requests through the
dedup gate, collecting each gate verdict and threading the store. -/
def processRequests (expiry : Nat) (s : RStore) :
    List (Nat × TrainerPayload) → List Bool × RStore
  | [] => ([], s)
  | (t, p) :: rest =>
    let (b, s') := is_new_request expiry s t p
    let (bs, s'') := processRequests expiry s' rest
    (b :: bs, s'')

theorem storeGet_setex_self (s : RStore) (t now expiry : Nat) (k : String)
    (h : now < t + expiry) :
    storeGet (storeSetex s t expiry k) now k = some (t + expiry) := by
  simp [storeGet, storeSetex, List.find?, h]

theorem processRequests_rejected (expiry t0 : Nat) (s : RStore) (k : String)
    (rest : List (Nat × TrainerPayload))
    (hks : ∀ q ∈ rest, dedupKey q.2 = k ∧ t0 ≤ q.1 ∧ q.1 < t0 + expiry) :
    processRequests expiry (storeSetex s t0 expiry k) rest =
      (rest.map (fun _ => false), storeSetex s t0 expiry k) := by
  induction rest with
  | nil => rfl
  | cons q rest ih =>
    obtain ⟨hk, _, hlt⟩ := hks q (List.mem_cons_self q rest)
    have hget : storeGet (storeSetex s t0 expiry k) q.1 (dedupKey q.2) =
        some (t0 + expiry) := by
      rw [hk]; exact storeGet_setex_self s t0 q.1 expiry k hlt
    simp only [processRequests, is_new_request, hget]
    rw [ih (fun q hq => hks q (List.mem_cons_of_mem _ hq))]
    simp

/-- C2: for a sequence of requests sharing one `(composite_keys, metric)`
key processed within the expiry window, exactly one (the first) is
admitted, every later one is rejected, and the store after the whole
sequence equals the store right after the first admission — the marker's
TTL is never extended. -/
theorem dedup_window_single_admission (expiry : Nat) (s : RStore)
    (t0 : Nat) (p0 : TrainerPayload) (rest : List (Nat × TrainerPayload))
    (habsent : storeGet s t0 (dedupKey p0) = none)
    (hks : ∀ q ∈ rest, dedupKey q.2 = dedupKey p0 ∧ t0 ≤ q.1 ∧ q.1 < t0 + expiry) :
    processRequests expiry s ((t0, p0) :: rest) =
      (true :: rest.map (fun _ => false), storeSetex s t0 expiry (dedupKey p0)) := by
  simp only [processRequests, is_new_request, habsent]
  rw [processRequests_rejected expiry t0 s (dedupKey p0) rest hks]

/-- Witness for `dedup_window_single_admission`: three identical requests
at instants 0, 100, 299 with TTL 300 — verdicts `[true, false, false]`. -/
theorem dedup_window_single_admission_witness :
    processRequests 300 []
        [(0, ⟨"u1", ["cfg", "ns"], "m"⟩), (100, ⟨"u2", ["cfg", "ns"], "m"⟩),
         (299, ⟨"u3", ["cfg", "ns"], "m"⟩)] =
      ([true, false, false], storeSetex [] 0 300 (dedupKey ⟨"u1", ["cfg", "ns"], "m"⟩)) := by
  rw [dedup_window_single_admission 300 [] 0 ⟨"u1", ["cfg", "ns"], "m"⟩
    [(100, ⟨"u2", ["cfg", "ns"], "m"⟩), (299, ⟨"u3", ["cfg", "ns"], "m"⟩)]
    (by decide) (by decide)]
  rfl

/-! ### C9: the gate's GET and SETEX are two separate store operations

`_is_new_request` issues `redis_client.get` and then `redis_client.setex`
as two distinct calls.  We model one gate invocation as a two-phase
process over the shared store and interleave two such processes. -/

/-- Execution phase of one in-flight `_is_new_request` call. -/
inductive GatePhase where
  | ready : GatePhase
  | willSet : GatePhase
  | done : Bool → GatePhase
deriving DecidableEq, Repr

/-- One atomic store operation of an in-flight `_is_new_request` call:
from `ready`, execute the GET (finishing with `false` if the marker is
present, else moving to `willSet`); from `willSet`, execute the SETEX and
finish with `true`. -/
def gateStep (expiry now : Nat) (k : String) :
    GatePhase × RStore → GatePhase × RStore
  | (.ready, s) =>
    match storeGet s now k with
    | some _ => (.done false, s)
    | none => (.willSet, s)
  | (.willSet, s) => (.done true, storeSetex s now expiry k)
  | (.done b, s) => (.done b, s)

/-- Run two concurrent gate invocations for the same key under a schedule
(`false` steps the first process, `true` the second). -/
def raceRun (expiry now : Nat) (k : String) :
    GatePhase × GatePhase × RStore → List Bool → GatePhase × GatePhase × RStore
  | st, [] => st
  | (a, b, s), c :: cs =>
    if c then
      let (b', s') := gateStep expiry now k (b, s)
      raceRun expiry now k (a, b', s') cs
    else
      let (a', s') := gateStep expiry now k (a, s)
      raceRun expiry now k (a', b, s') cs

/-- C9: the check and the set are not one atomic operation.  Under the
interleaving GET₁, GET₂, SETEX₁, SETEX₂ on an initially empty store, both
concurrent `_is_new_request` invocations for the same key return `true`:
two trainings are admitted in one expiry window. -/
theorem dedup_gate_not_atomic_race :
    raceRun 300 0 "train::cfg:ns:m" (.ready, .ready, [])
        [false, true, false, true] =
      (.done true, .done true,
        storeSetex (storeSetex [] 0 300 "train::cfg:ns:m") 0 300 "train::cfg:ns:m") := by
  decide

/-! ### Range query paginator (`Prometheus.query_range`, prometheus.py
lines 64-101)

Python float instants are modelled as rationals.  The backend is an
oracle from the requested `(start, end, step)` to either a parse/network
failure or a list of series. -/

/-- One series of a Prometheus range-query response: its label set and
its `(timestamp, value)` pairs. -/
structure PromSeries where
  labels : List (String × String)
  values : List (ℚ × ℚ)
deriving DecidableEq, Repr

/-- The parameters of one backend call issued by `query_range`. -/
structure RangeCall where
  startT : ℚ
  endT : ℚ
  step : ℕ
deriving DecidableEq, Repr

/-- The backend oracle: HTTP GET plus JSON decoding for one
`/api/v1/query_range` call, which either fails or yields series. -/
abbrev PromBackend := ℚ → ℚ → ℕ → Except Unit (List PromSeries)

/-- `Prometheus.query_range_limit`: refuse (empty result) when the call
would need more than 11,000 points at its own step; otherwise issue the
backend call, catching any error as an empty result. -/
def query_range_limit (backend : PromBackend) (startT endT : ℚ) (step : ℕ) :
    List PromSeries :=
  if 11000 < (endT - startT) / (step : ℚ) then []
  else
    match backend startT endT step with
    | .error _ => []
    | .ok rs => rs

/-- The sequence of backend calls issued by the `Prometheus.query_range`
loop: while the remaining range needs more than 11,000 points, carve off
a chunk of `11000 * step` seconds at the caller's step; the final call
for the remainder is issued WITHOUT the `step` argument, hence at the
default step 30 (line 77 of prometheus.py). -/
def query_range_calls (tempStart endT : ℚ) (step : ℕ) : List RangeCall :=
  if h : 11000 < (endT - tempStart) / (step : ℚ) then
    ⟨tempStart, tempStart + 11000 * step, step⟩ ::
      query_range_calls (tempStart + 11000 * step) endT step
  else if 0 < (endT - tempStart) / (step : ℚ) then
    [⟨tempStart, endT, 30⟩]
  else []
termination_by (⌈endT - tempStart⌉).toNat
decreasing_by
  have hstep : 0 < (step : ℚ) := by
    rcases Nat.eq_zero_or_pos step with h0 | h0
    · exfalso; rw [h0] at h; norm_num at h
    · exact_mod_cast h0
  have hgt : (11000 : ℚ) * step < endT - tempStart := by
    have := (lt_div_iff₀ hstep).mp h
    linarith
  have hceil : ((11000 : ℤ) * step) < ⌈endT - tempStart⌉ := by
    apply Int.lt_ceil.mpr
    push_cast
    exact hgt
  have key : ⌈endT - (tempStart + 11000 * (step : ℚ))⌉ =
      ⌈endT - tempStart⌉ - 11000 * (step : ℤ) := by
    rw [show endT - (tempStart + 11000 * (step : ℚ)) =
        (endT - tempStart) - ((11000 * (step : ℤ) : ℤ) : ℚ) by push_cast; ring]
    rw [Int.ceil_sub_int]
  have hpos : (0 : ℤ) < ⌈endT - tempStart⌉ := by
    have h0 : (0 : ℤ) ≤ 11000 * (step : ℤ) := by positivity
    exact lt_of_le_of_lt h0 hceil
  rw [key, Int.toNat_lt_toNat hpos]
  have hstep' : 0 < step := by exact_mod_cast hstep
  omega

/-- `Prometheus.query_range`: append the per-chunk results in the order
the chunks are issued. -/
def query_range (backend : PromBackend) (startT endT : ℚ) (step : ℕ) :
    List PromSeries :=
  (query_range_calls startT endT step).flatMap
    (fun c => query_range_limit backend c.startT c.endT c.step)

/-- C3 (refuted by the code): the final chunk call of `query_range` is
issued without the `step` argument, i.e. at the default step 30 rather
than the caller's step.  For `start = 0`, `end = 1320000`, `step = 60`
(22,000 caller-step points) the loop issues one chunk at step 60 and then
the remainder call `(660000, 1320000)` at step 30 — a call that needs
22,000 points at its own step, which `query_range_limit` rejects: the
stitched output silently loses the entire second half of the range,
whatever the backend returns. -/
theorem paginator_final_call_default_step :
    query_range_calls 0 1320000 60 =
      [⟨0, 660000, 60⟩, ⟨660000, 1320000, 30⟩] ∧
    (∀ backend : PromBackend, query_range_limit backend 660000 1320000 30 = []) ∧
    (∀ backend : PromBackend,
      query_range backend 0 1320000 60 = query_range_limit backend 0 660000 60) := by
  have hcalls : query_range_calls 0 1320000 60 =
      [⟨0, 660000, 60⟩, ⟨660000, 1320000, 30⟩] := by
    rw [query_range_calls]
    norm_num
    rw [query_range_calls]
    norm_num
  have hrej : ∀ backend : PromBackend,
      query_range_limit backend 660000 1320000 30 = [] := by
    intro backend
    rw [query_range_limit]
    norm_num
  refine ⟨hcalls, hrej, fun backend => ?_⟩
  rw [query_range, hcalls]
  simp only [List.flatMap_cons, List.flatMap_nil, hrej backend]
  simp

/-! ### Time-series frames and the data cleaner
(`PrometheusDataFetcher.clean_data`, prometheus.py lines 123-146)

A frame is a list of rows, each carrying a timestamp, the numeric cells
(Python floats: finite rationals, infinities, or NaN), and the value of
the `rollouts_pod_template_hash` label column; `hasHash` records whether
that column is present at all.  The pandas `reset_index` artifact column
is not tracked: no property proved here depends on it. -/

/-- One pandas cell: a finite float, `inf`, `-inf`, or `NaN`. -/
inductive Cell where
  | val : ℚ → Cell
  | pinf : Cell
  | ninf : Cell
  | na : Cell
deriving DecidableEq, Repr

structure Row where
  ts : ℚ
  cells : List Cell
  hash : String
deriving DecidableEq, Repr

structure Frame where
  hasHash : Bool
  rows : List Row
deriving DecidableEq, Repr

/-- `pd.DataFrame()`: no rows, no columns. -/
def emptyFrame : Frame := ⟨false, []⟩

def cellIsNA : Cell → Bool
  | .na => true
  | _ => false

def cellIsInf : Cell → Bool
  | .pinf => true
  | .ninf => true
  | _ => false

/-- `df.replace([np.inf, -np.inf], np.nan, inplace=True)` on one cell. -/
def replaceInfCell : Cell → Cell
  | .pinf => .na
  | .ninf => .na
  | c => c

def replaceInfRow (r : Row) : Row := { r with cells := r.cells.map replaceInfCell }

def replaceInf (f : Frame) : Frame := { f with rows := f.rows.map replaceInfRow }

/-- Forward fill, one cell: the per-column carry is the last non-NaN cell
seen and the length of the NaN run currently being crossed. -/
def ffillCell (limit : ℕ) (c : Cell) (st : Option Cell × ℕ) :
    Cell × (Option Cell × ℕ) :=
  match c, st with
  | .na, (some v, cnt) =>
    if cnt < limit then (v, (some v, cnt + 1)) else (.na, (some v, cnt + 1))
  | .na, (none, cnt) => (.na, (none, cnt + 1))
  | c, _ => (c, (some c, 0))

/-- Forward fill across the cells of one row, threading one carry per
column. -/
def ffillStep (limit : ℕ) : List (Option Cell × ℕ) → List Cell →
    List Cell × List (Option Cell × ℕ)
  | _, [] => ([], [])
  | sts, c :: cs =>
    ((ffillCell limit c (sts.headD (none, 0))).1 :: (ffillStep limit sts.tail cs).1,
     (ffillCell limit c (sts.headD (none, 0))).2 :: (ffillStep limit sts.tail cs).2)

/-- `df.fillna(method="ffill", limit=limit)`, row by row. -/
def ffillRows (limit : ℕ) (sts : List (Option Cell × ℕ)) :
    List Row → List Row
  | [] => []
  | r :: rs =>
    { r with cells := (ffillStep limit sts r.cells).1 } ::
      ffillRows limit (ffillStep limit sts r.cells).2 rs

def ffillFrame (limit : ℕ) (f : Frame) : Frame :=
  { f with rows := ffillRows limit [] f.rows }

def reverseRows (f : Frame) : Frame := { f with rows := f.rows.reverse }

/-- `df.fillna(method="bfill", limit=limit)` is a forward fill on the
reversed row order. -/
def bfillFrame (limit : ℕ) (f : Frame) : Frame :=
  reverseRows (ffillFrame limit (reverseRows f))

def rowHasNA (r : Row) : Bool := r.cells.any cellIsNA

def frameHasNA (f : Frame) : Bool := f.rows.any rowHasNA

/-- `if df.columns[df.isna().any()].tolist(): df.dropna(inplace=True)` —
when some column still holds NaN, drop every row containing any NaN. -/
def dropNAStage (f : Frame) : Frame :=
  if frameHasNA f then { f with rows := f.rows.filter (fun r => ¬ rowHasNA r) } else f

/-- The gap-fill / row-drop stage of `clean_data` (lines 125-129). -/
def fillStage (limit : ℕ) (f : Frame) : Frame :=
  dropNAStage (bfillFrame limit (ffillFrame limit (replaceInf f)))

def rowLE (a b : Row) : Prop := a.ts ≤ b.ts

instance : DecidableRel rowLE := fun a b => inferInstanceAs (Decidable (a.ts ≤ b.ts))

instance : IsTotal Row rowLE := ⟨fun a b => le_total a.ts b.ts⟩

instance : IsTrans Row rowLE := ⟨fun _ _ _ hab hbc => le_trans hab hbc⟩

/-- `df.sort_values(by=["timestamp"], ascending=True)`.  The sorting
algorithm only matters up to tie order among equal timestamps, which no
property proved here observes. -/
def sortByTs (rs : List Row) : List Row := rs.insertionSort rowLE

/-- The anti-join of lines 136-142: `pd.merge` of the frame with its
duplicated-timestamp rows on all columns keeps exactly the rows whose
timestamp occurs once. -/
def uniqueTsRows (rs : List Row) : List Row :=
  rs.filter (fun r => rs.countP (fun r2 => decide (r2.ts = r.ts)) = 1)

def dropHashRow (r : Row) : Row := { r with hash := "" }

def rolloutHashLabel : String := "rollouts_pod_template_hash"

/-- `PrometheusDataFetcher.clean_data`.  `.error` models an exception
escaping the function: the `TypeError` from `"…" in None` when
`return_labels` is `None`, and the `KeyError` from dropping the
rollout-hash column when the frame does not have it. -/
def clean_data (limit : ℕ) (f : Frame) (return_labels : Option (List String)) :
    Except String Frame :=
  let f1 := fillStage limit f
  if f1.rows.isEmpty then .ok emptyFrame
  else
    match return_labels with
    | none => .error "TypeError"
    | some ls =>
      if rolloutHashLabel ∈ ls then
        if f1.hasHash then
          .ok ⟨false, sortByTs ((uniqueTsRows f1.rows).map dropHashRow)⟩
        else .error "KeyError"
      else .ok f1

/-- The clean step of `PrometheusDataFetcher.fetch_data` (lines 169-172):
the exception is caught, and the caller keeps its own frame — which the
in-place `replace([inf, -inf], nan)` at the top of `clean_data` has
already mutated. -/
def fetch_data_clean (limit : ℕ) (df : Frame) (return_labels : Option (List String)) :
    Frame :=
  match clean_data limit df return_labels with
  | .ok g => g
  | .error _ => replaceInf df

/-! ### Cleaner lemmas: fills fix NaN-free frames, never create
infinities, and `fillStage` output is NaN-free -/

theorem ffillCell_of_notNA (limit : ℕ) (c : Cell) (st : Option Cell × ℕ)
    (h : cellIsNA c = false) : ffillCell limit c st = (c, (some c, 0)) := by
  cases c <;> simp_all [cellIsNA, ffillCell]

theorem ffillStep_of_notNA (limit : ℕ) (cs : List Cell)
    (h : ∀ c ∈ cs, cellIsNA c = false) (sts : List (Option Cell × ℕ)) :
    (ffillStep limit sts cs).1 = cs := by
  induction cs generalizing sts with
  | nil => rfl
  | cons c cs ih =>
    have hc := h c (List.mem_cons_self _ _)
    simp only [ffillStep, ffillCell_of_notNA limit c _ hc]
    exact congrArg _ (ih (fun c hc => h c (List.mem_cons_of_mem _ hc)) sts.tail)

theorem ffillRows_of_noNA (limit : ℕ) (rs : List Row)
    (h : ∀ r ∈ rs, rowHasNA r = false) (sts : List (Option Cell × ℕ)) :
    ffillRows limit sts rs = rs := by
  induction rs generalizing sts with
  | nil => rfl
  | cons r rs ih =>
    have hr := h r (List.mem_cons_self _ _)
    have hcells : ∀ c ∈ r.cells, cellIsNA c = false := by
      simpa [rowHasNA] using hr
    simp only [ffillRows, ffillStep_of_notNA limit r.cells hcells sts]
    exact congrArg₂ _ rfl (ih (fun r hr => h r (List.mem_cons_of_mem _ hr)) _)

theorem ffillFrame_of_noNA (limit : ℕ) (f : Frame) (h : frameHasNA f = false) :
    ffillFrame limit f = f := by
  have hrs : ∀ r ∈ f.rows, rowHasNA r = false := by
    simpa [frameHasNA] using h
  simp [ffillFrame, ffillRows_of_noNA limit f.rows hrs]

theorem bfillFrame_of_noNA (limit : ℕ) (f : Frame) (h : frameHasNA f = false) :
    bfillFrame limit f = f := by
  have hall : ∀ r ∈ f.rows, rowHasNA r = false := by
    simpa [frameHasNA] using h
  have hrs : ∀ r ∈ f.rows.reverse, rowHasNA r = false := fun r hr =>
    hall r (List.mem_reverse.mp hr)
  simp [bfillFrame, reverseRows, ffillFrame, ffillRows_of_noNA limit _ hrs]

theorem frameHasNA_dropNAStage (f : Frame) : frameHasNA (dropNAStage f) = false := by
  by_cases h : frameHasNA f
  · simp only [dropNAStage, h, if_pos]
    simp only [frameHasNA, List.any_eq_false]
    intro r hr
    have := (List.mem_filter.mp hr).2
    simpa using this
  · simp only [dropNAStage]
    rw [if_neg (by simpa using h)]
    simpa using h

def rowNoInf (r : Row) : Bool := r.cells.all (fun c => !cellIsInf c)

def frameNoInf (f : Frame) : Bool := f.rows.all rowNoInf

def stateNoInf (st : Option Cell × ℕ) : Bool :=
  match st.1 with
  | some c => !cellIsInf c
  | none => true

theorem map_id_of_forall {α : Type} (f : α → α) (l : List α)
    (h : ∀ a ∈ l, f a = a) : l.map f = l := by
  induction l with
  | nil => rfl
  | cons a l ih =>
    simp [h a (List.mem_cons_self _ _),
      ih (fun a ha => h a (List.mem_cons_of_mem _ ha))]

theorem ffillCell_noInf (limit : ℕ) (c : Cell) (st : Option Cell × ℕ)
    (hc : cellIsInf c = false) (hst : stateNoInf st = true) :
    cellIsInf (ffillCell limit c st).1 = false ∧
      stateNoInf (ffillCell limit c st).2 = true := by
  obtain ⟨o, cnt⟩ := st
  cases c with
  | na =>
    cases o with
    | none => simp [ffillCell, stateNoInf, cellIsNA, cellIsInf]
    | some v =>
      simp only [stateNoInf] at hst
      simp only [ffillCell]
      by_cases hlt : cnt < limit
      · rw [if_pos hlt]; simp_all [cellIsInf, stateNoInf]
      · rw [if_neg hlt]; simp_all [cellIsInf, stateNoInf]
  | val x => simp [ffillCell, stateNoInf, cellIsInf]
  | pinf => simp [cellIsInf] at hc
  | ninf => simp [cellIsInf] at hc

theorem ffillStep_noInf (limit : ℕ) (cs : List Cell)
    (hcs : ∀ c ∈ cs, cellIsInf c = false) (sts : List (Option Cell × ℕ))
    (hsts : ∀ st ∈ sts, stateNoInf st = true) :
    (∀ c' ∈ (ffillStep limit sts cs).1, cellIsInf c' = false) ∧
      (∀ st' ∈ (ffillStep limit sts cs).2, stateNoInf st' = true) := by
  induction cs generalizing sts with
  | nil => exact ⟨by simp [ffillStep], by simp [ffillStep]⟩
  | cons c cs ih =>
    have hhead : stateNoInf (sts.headD (none, 0)) = true := by
      cases sts with
      | nil => rfl
      | cons st sts => exact hsts st (List.mem_cons_self _ _)
    have htail : ∀ st ∈ sts.tail, stateNoInf st = true := by
      cases sts with
      | nil => intro st h; simp at h
      | cons st sts => exact fun st' h => hsts st' (List.mem_cons_of_mem _ h)
    obtain ⟨hc1, hst1⟩ := ffillCell_noInf limit c (sts.headD (none, 0))
      (hcs c (List.mem_cons_self _ _)) hhead
    obtain ⟨ihc, ihst⟩ := ih (fun c hc => hcs c (List.mem_cons_of_mem _ hc)) sts.tail htail
    constructor
    · intro c' hc'
      simp only [ffillStep, List.mem_cons] at hc'
      rcases hc' with h | h
      · rw [h]; exact hc1
      · exact ihc c' h
    · intro st' hst'
      simp only [ffillStep, List.mem_cons] at hst'
      rcases hst' with h | h
      · rw [h]; exact hst1
      · exact ihst st' h

theorem ffillRows_noInf (limit : ℕ) (rs : List Row)
    (hrs : ∀ r ∈ rs, rowNoInf r = true) (sts : List (Option Cell × ℕ))
    (hsts : ∀ st ∈ sts, stateNoInf st = true) :
    ∀ r' ∈ ffillRows limit sts rs, rowNoInf r' = true := by
  induction rs generalizing sts with
  | nil => intro r' h; simp [ffillRows] at h
  | cons r rs ih =>
    have hr : ∀ c ∈ r.cells, cellIsInf c = false := by
      have := hrs r (List.mem_cons_self _ _)
      simpa [rowNoInf] using this
    obtain ⟨hcells, hsts'⟩ := ffillStep_noInf limit r.cells hr sts hsts
    intro r' hr'
    simp only [ffillRows, List.mem_cons] at hr'
    rcases hr' with h | h
    · rw [h]
      simpa [rowNoInf] using hcells
    · exact ih (fun r hrm => hrs r (List.mem_cons_of_mem _ hrm)) _ hsts' r' h

theorem replaceInfCell_notInf (c : Cell) : cellIsInf (replaceInfCell c) = false := by
  cases c <;> rfl

theorem frameNoInf_replaceInf (f : Frame) : frameNoInf (replaceInf f) = true := by
  simp only [frameNoInf, replaceInf, List.all_eq_true]
  intro r hr
  obtain ⟨r0, _, hr0⟩ := List.mem_map.mp hr
  subst hr0
  simp only [rowNoInf, replaceInfRow, List.all_eq_true]
  intro c hc
  obtain ⟨c0, _, hc0⟩ := List.mem_map.mp hc
  subst hc0
  simp [replaceInfCell_notInf]

theorem replaceInf_of_noInf (f : Frame) (h : frameNoInf f = true) :
    replaceInf f = f := by
  have hall : ∀ r ∈ f.rows, rowNoInf r = true := by
    simpa [frameNoInf] using h
  simp only [replaceInf]
  have hmap : f.rows.map replaceInfRow = f.rows := by
    apply map_id_of_forall
    intro r hr
    have hcs : ∀ c ∈ r.cells, cellIsInf c = false := by
      have := hall r hr
      simpa [rowNoInf] using this
    simp only [replaceInfRow]
    have hcmap : r.cells.map replaceInfCell = r.cells := by
      apply map_id_of_forall
      intro c hc
      have := hcs c hc
      cases c <;> simp_all [cellIsInf, replaceInfCell]
    rw [hcmap]
  rw [hmap]

theorem frameNoInf_ffillFrame (limit : ℕ) (f : Frame) (h : frameNoInf f = true) :
    frameNoInf (ffillFrame limit f) = true := by
  have hall : ∀ r ∈ f.rows, rowNoInf r = true := by
    simpa [frameNoInf] using h
  simp only [frameNoInf, ffillFrame, List.all_eq_true]
  exact ffillRows_noInf limit f.rows hall [] (by intro st h; simp at h)

theorem frameNoInf_bfillFrame (limit : ℕ) (f : Frame) (h : frameNoInf f = true) :
    frameNoInf (bfillFrame limit f) = true := by
  have hrev : frameNoInf (reverseRows f) = true := by
    simp only [frameNoInf, reverseRows, List.all_eq_true] at h ⊢
    intro r hr
    exact h r (List.mem_reverse.mp hr)
  have := frameNoInf_ffillFrame limit (reverseRows f) hrev
  simp only [frameNoInf, bfillFrame, reverseRows, List.all_eq_true] at this ⊢
  intro r hr
  exact this r (List.mem_reverse.mp hr)

theorem frameNoInf_dropNAStage (f : Frame) (h : frameNoInf f = true) :
    frameNoInf (dropNAStage f) = true := by
  simp only [frameNoInf, List.all_eq_true] at h ⊢
  intro r hr
  apply h
  by_cases hna : frameHasNA f
  · simp only [dropNAStage, if_pos hna] at hr
    exact (List.mem_filter.mp hr).1
  · simpa [dropNAStage, hna] using hr

theorem frameNoInf_fillStage (limit : ℕ) (f : Frame) :
    frameNoInf (fillStage limit f) = true :=
  frameNoInf_dropNAStage _
    (frameNoInf_bfillFrame limit _
      (frameNoInf_ffillFrame limit _ (frameNoInf_replaceInf f)))

theorem frameHasNA_fillStage (limit : ℕ) (f : Frame) :
    frameHasNA (fillStage limit f) = false :=
  frameHasNA_dropNAStage _

theorem fillStage_of_clean (limit : ℕ) (f : Frame)
    (hna : frameHasNA f = false) (hinf : frameNoInf f = true) :
    fillStage limit f = f := by
  rw [fillStage, replaceInf_of_noInf f hinf, ffillFrame_of_noNA limit f hna,
    bfillFrame_of_noNA limit f hna, dropNAStage, if_neg (by simp [hna])]

/-! ### C6: idempotence of cleaning -/

def c6frame : Frame := ⟨true, [⟨0, [.val 1], "a"⟩]⟩

/-- C6 (refuted as stated): cleaning is not idempotent when the
label-column list names the rollout-identity column — the first
application drops that column, so the second application's
`df.drop("rollouts_pod_template_hash", axis=1)` raises `KeyError`.
Concretely, one nonempty single-row frame suffices. -/
theorem clean_data_not_idempotent :
    (clean_data 12 c6frame (some [rolloutHashLabel])).bind
        (fun g => clean_data 12 g (some [rolloutHashLabel])) ≠
      clean_data 12 c6frame (some [rolloutHashLabel]) := by
  have h1 : clean_data 12 c6frame (some [rolloutHashLabel]) =
      .ok ⟨false, [⟨0, [.val 1], ""⟩]⟩ := rfl
  have h2 : (clean_data 12 c6frame (some [rolloutHashLabel])).bind
      (fun g => clean_data 12 g (some [rolloutHashLabel])) = .error "KeyError" := rfl
  rw [h2, h1]
  simp

/-- C6 (amended): cleaning IS idempotent whenever the label-column list
does not name the rollout-identity column: the second application's
replace/fill/drop stages fix the first application's output, which is
free of NaN and infinities. -/
theorem clean_data_idempotent_no_rollout (limit : ℕ) (f : Frame) (ls : List String)
    (h : rolloutHashLabel ∉ ls) :
    (clean_data limit f (some ls)).bind (fun g => clean_data limit g (some ls)) =
      clean_data limit f (some ls) := by
  have hna := frameHasNA_fillStage limit f
  have hinf := frameNoInf_fillStage limit f
  by_cases he : (fillStage limit f).rows.isEmpty
  · have h1 : clean_data limit f (some ls) = .ok emptyFrame := by
      simp [clean_data, he]
    rw [h1]
    show clean_data limit emptyFrame (some ls) = .ok emptyFrame
    rfl
  · have h1 : clean_data limit f (some ls) = .ok (fillStage limit f) := by
      simp [clean_data, he, h]
    rw [h1]
    show clean_data limit (fillStage limit f) (some ls) = .ok (fillStage limit f)
    have hfix : fillStage limit (fillStage limit f) = fillStage limit f :=
      fillStage_of_clean limit _ hna hinf
    simp [clean_data, hfix, he, h]

/-- Witness for `clean_data_idempotent_no_rollout`: the same single-row
frame, cleaned with an empty label list, is a fixed point of cleaning. -/
theorem clean_data_idempotent_no_rollout_witness :
    (clean_data 12 c6frame (some [])).bind (fun g => clean_data 12 g (some [])) =
      clean_data 12 c6frame (some []) :=
  clean_data_idempotent_no_rollout 12 c6frame [] (by simp)

/-! ### C5: overlapping-revision timestamps after cleaning -/

/-- A timestamp `t` that `f` reports under two different rollout
revisions (two rows at `t` with distinct hash-column values). -/
def tsUnderTwoRevisions (f : Frame) (t : ℚ) : Prop :=
  ∃ r1 ∈ f.rows, ∃ r2 ∈ f.rows, r1.ts = t ∧ r2.ts = t ∧ r1.hash ≠ r2.hash

theorem two_le_countP {α : Type} (p : α → Bool) (l : List α) (a b : α)
    (ha : a ∈ l) (hb : b ∈ l) (hne : a ≠ b) (hpa : p a = true) (hpb : p b = true) :
    2 ≤ l.countP p := by
  have ha' : a ∈ l.filter p := List.mem_filter.mpr ⟨ha, hpa⟩
  have hb' : b ∈ l.filter p := List.mem_filter.mpr ⟨hb, hpb⟩
  rw [List.countP_eq_length_filter]
  rcases hfil : l.filter p with _ | ⟨x, _ | ⟨y, rest⟩⟩
  · rw [hfil] at ha'
    simp at ha'
  · rw [hfil] at ha' hb'
    simp only [List.mem_singleton] at ha' hb'
    exact absurd (ha'.trans hb'.symm) hne
  · simp

/-- C5 (amended): for a frame with no missing and no infinite entries
(so the gap-fill / row-drop stage is the identity) carrying the
rollout-identity column, cleaning succeeds and its output has no row at
any timestamp reported under two revisions, has no rollout-identity
column, and is sorted ascending by timestamp. -/
theorem clean_drops_overlapping_revisions (limit : ℕ) (f : Frame) (ls : List String)
    (hna : frameHasNA f = false) (hinf : frameNoInf f = true)
    (hhash : f.hasHash = true) (hmem : rolloutHashLabel ∈ ls) :
    ∃ g, clean_data limit f (some ls) = .ok g ∧
      g.hasHash = false ∧
      (∀ t, tsUnderTwoRevisions f t → ∀ r ∈ g.rows, r.ts ≠ t) ∧
      List.Sorted rowLE g.rows := by
  have hfix : fillStage limit f = f := fillStage_of_clean limit f hna hinf
  by_cases he : f.rows.isEmpty
  · refine ⟨emptyFrame, ?_, rfl, ?_, ?_⟩
    · simp [clean_data, hfix, he]
    · intro t _ r hr
      simp [emptyFrame] at hr
    · exact List.sorted_nil
  · refine ⟨⟨false, sortByTs ((uniqueTsRows f.rows).map dropHashRow)⟩, ?_, rfl, ?_, ?_⟩
    · simp [clean_data, hfix, he, hmem, hhash]
    · intro t hboth r hr hts
      obtain ⟨r1, hr1, r2, hr2, ht1, ht2, hneq⟩ := hboth
      have hr' : r ∈ (uniqueTsRows f.rows).map dropHashRow :=
        (List.mem_insertionSort rowLE).mp hr
      obtain ⟨r0, hr0, hr0eq⟩ := List.mem_map.mp hr'
      have hts0 : r0.ts = t := by
        rw [← hts, ← hr0eq]
        rfl
      have hr0' := hr0
      simp only [uniqueTsRows, List.mem_filter] at hr0'
      have hcount : f.rows.countP (fun r2 => decide (r2.ts = r0.ts)) = 1 :=
        of_decide_eq_true hr0'.2
      have hne12 : r1 ≠ r2 := fun hE => hneq (congrArg Row.hash hE)
      have h2le : 2 ≤ f.rows.countP (fun r2 => decide (r2.ts = r0.ts)) := by
        apply two_le_countP _ _ r1 r2 hr1 hr2 hne12
        · simp [ht1, hts0]
        · simp [ht2, hts0]
      omega
    · exact List.sorted_insertionSort rowLE _

/-- Witness frame for the amended C5 theorem: timestamp 1 occurs under
revisions "a" and "b", timestamp 2 only under "b". -/
def c5w : Frame :=
  ⟨true, [⟨1, [.val 5], "a"⟩, ⟨1, [.val 6], "b"⟩, ⟨2, [.val 7], "b"⟩]⟩

theorem clean_drops_overlapping_revisions_witness :
    frameHasNA c5w = false ∧ frameNoInf c5w = true ∧ c5w.hasHash = true ∧
      rolloutHashLabel ∈ [rolloutHashLabel] ∧
      (∃ g, clean_data 12 c5w (some [rolloutHashLabel]) = .ok g ∧
        g.hasHash = false ∧
        (∀ t, tsUnderTwoRevisions c5w t → ∀ r ∈ g.rows, r.ts ≠ t) ∧
        List.Sorted rowLE g.rows) :=
  ⟨by decide, by decide, rfl, by simp,
    clean_drops_overlapping_revisions 12 c5w [rolloutHashLabel]
      (by decide) (by decide) rfl (by simp)⟩

/-- Counterexample frame for C5 as stated: timestamp 100 occurs under
revisions "a" and "b"; the 13-long NaN run at the head leaves the "a"
row unfillable (ffill has no predecessor, bfill's limit 12 stops one
short), so the row-drop stage removes it BEFORE the anti-join, and
timestamp 100 is no longer duplicated when duplicates are resolved. -/
def c5cex : Frame :=
  ⟨true,
    [⟨100, [.na], "a"⟩, ⟨100, [.na], "b"⟩, ⟨101, [.na], "b"⟩, ⟨102, [.na], "b"⟩,
     ⟨103, [.na], "b"⟩, ⟨104, [.na], "b"⟩, ⟨105, [.na], "b"⟩, ⟨106, [.na], "b"⟩,
     ⟨107, [.na], "b"⟩, ⟨108, [.na], "b"⟩, ⟨109, [.na], "b"⟩, ⟨110, [.na], "b"⟩,
     ⟨111, [.na], "b"⟩, ⟨112, [.val 7], "b"⟩]⟩

/-- C5 (refuted as stated): `c5cex` reports timestamp 100 under both
revisions, yet the cleaned output still contains a row at timestamp
100. -/
theorem clean_keeps_overlapped_timestamp :
    tsUnderTwoRevisions c5cex 100 ∧
      ∃ g, clean_data 12 c5cex (some [rolloutHashLabel]) = .ok g ∧
        ∃ r ∈ g.rows, r.ts = 100 := by
  constructor
  · refine ⟨⟨100, [.na], "a"⟩, by simp [c5cex], ⟨100, [.na], "b"⟩, by simp [c5cex],
      rfl, rfl, by simp⟩
  · refine ⟨⟨false,
      [⟨100, [.val 7], ""⟩, ⟨101, [.val 7], ""⟩, ⟨102, [.val 7], ""⟩,
       ⟨103, [.val 7], ""⟩, ⟨104, [.val 7], ""⟩, ⟨105, [.val 7], ""⟩,
       ⟨106, [.val 7], ""⟩, ⟨107, [.val 7], ""⟩, ⟨108, [.val 7], ""⟩,
       ⟨109, [.val 7], ""⟩, ⟨110, [.val 7], ""⟩, ⟨111, [.val 7], ""⟩,
       ⟨112, [.val 7], ""⟩]⟩, ?_, ⟨100, [.val 7], ""⟩, by simp, rfl⟩
    rfl

/-! ### C10: the guarded clean step inside fetch_data -/

def c10cex : Frame := ⟨false, [⟨0, [.pinf], ""⟩, ⟨1, [.val 5], ""⟩]⟩

/-- C10 (refuted as stated): with `return_labels = None` the clean step
raises and is caught, but the frame handed back is NOT the raw frame
unchanged: `clean_data`'s `replace([inf, -inf], nan, inplace=True)` has
already rewritten the caller's frame, so the infinity comes back as NaN. -/
theorem fetch_data_clean_mutates_raw :
    (clean_data 12 c10cex none = .error "TypeError") ∧
      fetch_data_clean 12 c10cex none ≠ c10cex ∧
      fetch_data_clean 12 c10cex none ≠ emptyFrame := by
  refine ⟨rfl, ?_, ?_⟩ <;> decide

/-- C10 (amended): when the clean step raises, `fetch_data` returns the
raw frame with only the in-place infinity→NaN replacement applied —
identical to the raw frame whenever it holds no infinities — and never
an empty frame or an error. -/
theorem fetch_data_clean_returns_replaced_raw (limit : ℕ) (df : Frame)
    (labels : Option (List String)) (e : String)
    (herr : clean_data limit df labels = .error e) :
    fetch_data_clean limit df labels = replaceInf df ∧
      (frameNoInf df = true → fetch_data_clean limit df labels = df) := by
  constructor
  · simp [fetch_data_clean, herr]
  · intro hni
    simp [fetch_data_clean, herr, replaceInf_of_noInf df hni]

theorem fetch_data_clean_returns_replaced_raw_witness :
    clean_data 12 (⟨false, [⟨0, [.val 1], ""⟩]⟩ : Frame) none = .error "TypeError" ∧
      (fetch_data_clean 12 (⟨false, [⟨0, [.val 1], ""⟩]⟩ : Frame) none =
          replaceInf ⟨false, [⟨0, [.val 1], ""⟩]⟩ ∧
        (frameNoInf (⟨false, [⟨0, [.val 1], ""⟩]⟩ : Frame) = true →
          fetch_data_clean 12 (⟨false, [⟨0, [.val 1], ""⟩]⟩ : Frame) none =
            ⟨false, [⟨0, [.val 1], ""⟩]⟩)) :=
  ⟨rfl, fetch_data_clean_returns_replaced_raw 12 _ none "TypeError" rfl⟩

/-! ### The Prometheus fetch path (`Prometheus.query_metric`,
`PrometheusDataFetcher.fetch_data`, `Train.fetch_*`) -/

def wantsHash : Option (List String) → Bool
  | none => false
  | some ls => rolloutHashLabel ∈ ls

def lookupHash (s : PromSeries) : Option String :=
  (s.labels.find? (fun kv => kv.1 == rolloutHashLabel)).map (fun kv => kv.2)

/-- The rows contributed by one returned series (lines 46-54): one row
per (timestamp, value) pair, carrying the rollout-hash label value when
it was requested and the series has it. -/
def seriesRows (return_labels : Option (List String)) (s : PromSeries) : List Row :=
  s.values.map (fun p =>
    ⟨p.1, [.val p.2],
      match (if wantsHash return_labels then lookupHash s else none) with
      | some v => v
      | none => ""⟩)

/-- `Prometheus.query_metric` (lines 18-62): raises `ValueError` when
`end < start`; an empty result list yields `pd.DataFrame()`; otherwise
the per-series frames are concatenated and sorted by timestamp. -/
def query_metric (backend : PromBackend) (return_labels : Option (List String))
    (startT endT : ℚ) (step : ℕ) : Except Unit Frame :=
  if endT < startT then .error ()
  else
    let results := query_range backend startT endT step
    if results.isEmpty then .ok emptyFrame
    else
      .ok ⟨results.any (fun s => wantsHash return_labels && (lookupHash s).isSome),
           sortByTs (results.flatMap (seriesRows return_labels))⟩

/-- `PrometheusDataFetcher.fetch_data` (lines 148-180): query the last
`hours` hours back from `endT` at scrape step 30, then the guarded
clean. -/
def prom_fetch_data (backend : PromBackend) (hours : ℕ) (endT : ℚ)
    (return_labels : Option (List String)) : Except Unit Frame :=
  match query_metric backend return_labels (endT - hours * 3600) endT 30 with
  | .error e => .error e
  | .ok df => .ok (fetch_data_clean 12 df return_labels)

/-- `Train.fetch_prometheus_data` (train.py lines 40-51): absent
Prometheus config yields an empty frame; otherwise fetch with
`return_labels=["rollouts_pod_template_hash"]`. -/
def fetch_prometheus_data (promConf : Option String) (backend : PromBackend)
    (hours : ℕ) (endT : ℚ) : Except Unit Frame :=
  match promConf with
  | none => .ok emptyFrame
  | some _ => prom_fetch_data backend hours endT (some [rolloutHashLabel])

/-- Modelled from the spec: `DruidFetcher.fetch_data`
(src/connectors/druid.py is not among the sources) returns a pivoted
tabular frame and "an empty frame (not an error) when the backend is
unreachable, unconfigured, or returns no rows". -/
def druid_fetcher_fetch (oracle : Except Unit (List Row)) : Frame :=
  match oracle with
  | .error _ => emptyFrame
  | .ok rows => ⟨false, rows⟩

/-- `Train.fetch_druid_data` (train.py lines 53-73): absent Druid config
yields an empty frame; otherwise delegate to the Druid fetcher. -/
def fetch_druid_data (druidConf : Option String) (oracle : Except Unit (List Row)) :
    Frame :=
  match druidConf with
  | none => emptyFrame
  | some _ => druid_fetcher_fetch oracle

/-- The source enum of the stream config (`DataSource`). -/
inductive DataSource where
  | prometheus : DataSource
  | druid : DataSource
  | unsupported : DataSource
deriving DecidableEq, Repr

/-- `Train.fetch_data` (train.py lines 75-88): dispatch on the entity's
configured source; an unsupported source is logged and yields an empty
frame. -/
def fetch_data (src : DataSource) (promConf : Option String) (backend : PromBackend)
    (hours : ℕ) (endT : ℚ) (druidConf : Option String)
    (oracle : Except Unit (List Row)) : Except Unit Frame :=
  match src with
  | .prometheus => fetch_prometheus_data promConf backend hours endT
  | .druid => .ok (fetch_druid_data druidConf oracle)
  | .unsupported => .ok emptyFrame

/-! ### Orchestrator (`Train._train_and_save` lines 139-230 and
`Train.run` lines 232-283)

The numeric outcomes of the fit stages and registry saves are abstracted
to their control-flow effect: whether each call raises.  The fetched
frame is abstracted to its row count, the only attribute `run` reads. -/

inductive Artifact where
  | model : Artifact
  | preproc : Artifact
  | threshold : Artifact
deriving DecidableEq, Repr

/-- Whether `_preprocess`, `_train_model`, `_find_threshold` raise. -/
structure StageOutcome where
  preprocRaises : Bool
  trainRaises : Bool
  threshRaises : Bool
deriving DecidableEq, Repr

/-- Whether each registry save raises `RedisRegistryError`. -/
structure SaveOutcome where
  modelErr : Bool
  preprocErr : Bool
  threshErr : Bool
deriving DecidableEq, Repr

inductive Event where
  | fetchAttempt : Event
  | trainEntered : Event
  | saveAttempt : Artifact → Bool → Event
  | ack : String → Event
deriving DecidableEq, Repr

/-- `Train._train_and_save`: the three fit stages run unguarded, so a
raise in any of them propagates to the caller (`.error`); once fitting
succeeds, the saves for model, preproc and threshold are attempted in
that order, each inside its own `try/except RedisRegistryError`, so a
failed save is logged and never stops the remaining saves, and nothing
is ever rolled back. -/
def train_and_save (st : StageOutcome) (sv : SaveOutcome) : Except Unit (List Event) :=
  if st.preprocRaises then .error ()
  else if st.trainRaises then .error ()
  else if st.threshRaises then .error ()
  else .ok [.saveAttempt .model (!sv.modelErr),
            .saveAttempt .preproc (!sv.preprocErr),
            .saveAttempt .threshold (!sv.threshErr)]

/-- Per-request environment of one `run` iteration: wall-clock instant
for the dedup gate, fetch outcome (`.error` = `fetch_data` raised,
`.ok n` = a frame with `n` rows), the policy minimum, and the stage/save
outcomes. -/
structure ReqEnv where
  time : ℕ
  fetch : Except Unit ℕ
  minTrainSize : ℕ
  stages : StageOutcome
  saves : SaveOutcome

structure Datum where
  id : String
  payload : TrainerPayload

/-- One iteration of the `run` loop: dedup-rejected → ack; fetch error →
caught, ack; row count below the policy minimum → ack; otherwise
`_train_and_save`, whose raise is NOT caught here (the only unguarded
call in the loop body besides config lookup), then ack. -/
def runStep (expiry : ℕ) (s : RStore) (d : Datum) (env : ReqEnv) :
    Except Unit (RStore × List Event) :=
  let res := is_new_request expiry s env.time d.payload
  if res.1 = false then .ok (res.2, [.ack d.id])
  else
    match env.fetch with
    | .error _ => .ok (res.2, [.fetchAttempt, .ack d.id])
    | .ok n =>
      if n < env.minTrainSize then .ok (res.2, [.fetchAttempt, .ack d.id])
      else
        match train_and_save env.stages env.saves with
        | .error e => .error e
        | .ok evs => .ok (res.2, [.fetchAttempt, .trainEntered] ++ evs ++ [.ack d.id])

/-- `Train.run`: fold `runStep` over the batch; an uncaught exception in
an iteration aborts the whole loop and discards the responses built so
far. -/
def runLoop (expiry : ℕ) (s : RStore) :
    List (Datum × ReqEnv) → Except Unit (RStore × List Event)
  | [] => .ok (s, [])
  | (d, env) :: rest =>
    match runStep expiry s d env with
    | .error e => .error e
    | .ok (s', evs) =>
      match runLoop expiry s' rest with
      | .error e => .error e
      | .ok (s'', evs') => .ok (s'', evs ++ evs')

/-- The positive acknowledgements of an event trace, in order. -/
def ackIds (evs : List Event) : List String :=
  evs.filterMap (fun ev => match ev with | .ack i => some i | _ => none)

def noStageRaise (st : StageOutcome) : Prop :=
  st.preprocRaises = false ∧ st.trainRaises = false ∧ st.threshRaises = false

theorem runStep_acks_once (expiry : ℕ) (s : RStore) (d : Datum) (env : ReqEnv)
    (h : noStageRaise env.stages) :
    ∃ s' evs, runStep expiry s d env = .ok (s', evs) ∧ ackIds evs = [d.id] := by
  obtain ⟨h1, h2, h3⟩ := h
  have hts : train_and_save env.stages env.saves =
      .ok [.saveAttempt .model (!env.saves.modelErr),
           .saveAttempt .preproc (!env.saves.preprocErr),
           .saveAttempt .threshold (!env.saves.threshErr)] := by
    unfold train_and_save
    rw [h1, h2, h3]
    rfl
  by_cases hnew : (is_new_request expiry s env.time d.payload).1 = false
  · exact ⟨(is_new_request expiry s env.time d.payload).2, [.ack d.id],
      by simp [runStep, hnew], rfl⟩
  · rcases hf : env.fetch with e | n
    · exact ⟨(is_new_request expiry s env.time d.payload).2, [.fetchAttempt, .ack d.id],
        by simp [runStep, hnew, hf], rfl⟩
    · by_cases hmin : n < env.minTrainSize
      · exact ⟨(is_new_request expiry s env.time d.payload).2, [.fetchAttempt, .ack d.id],
          by simp [runStep, hnew, hf, hmin], rfl⟩
      · exact ⟨(is_new_request expiry s env.time d.payload).2, [.fetchAttempt, .trainEntered,
          .saveAttempt .model (!env.saves.modelErr),
          .saveAttempt .preproc (!env.saves.preprocErr),
          .saveAttempt .threshold (!env.saves.threshErr), .ack d.id],
          by simp [runStep, hnew, hf, hmin, hts], rfl⟩

/-- C1 (refuted as stated): a batch of one admitted message whose
preprocessing stage raises.  `run` calls `_train_and_save` with no
try/except around it, so the exception escapes the loop: no
acknowledgement at all is emitted for the inbound message, instead of
exactly one positive one. -/
theorem run_pipeline_failure_escapes :
    runLoop 300 []
        [(⟨"d1", ⟨"u", ["cfg", "ns"], "m"⟩⟩,
          ⟨0, .ok 100, 10, ⟨true, false, false⟩, ⟨false, false, false⟩⟩)] =
      .error () := by
  rfl

/-- C1 (amended): every failure on the dedup, fetch, insufficient-data
and artifact-save paths is caught and converted so that exactly one
positive acknowledgement is emitted per inbound message — provided no
preprocessing/model/threshold fit raises; a fit-stage raise is NOT
caught and propagates out of the loop. -/
theorem run_acks_once_per_message (expiry : ℕ) (s : RStore)
    (batch : List (Datum × ReqEnv))
    (h : ∀ p ∈ batch, noStageRaise p.2.stages) :
    ∃ s' evs, runLoop expiry s batch = .ok (s', evs) ∧
      ackIds evs = batch.map (fun p => p.1.id) := by
  induction batch generalizing s with
  | nil => exact ⟨s, [], rfl, rfl⟩
  | cons p rest ih =>
    obtain ⟨d, env⟩ := p
    obtain ⟨s1, evs1, hstep, hack1⟩ :=
      runStep_acks_once expiry s d env (h _ (List.mem_cons_self _ _))
    obtain ⟨s2, evs2, hloop, hack2⟩ :=
      ih s1 (fun p hp => h p (List.mem_cons_of_mem _ hp))
    refine ⟨s2, evs1 ++ evs2, ?_, ?_⟩
    · simp only [runLoop, hstep, hloop]
    · simp only [ackIds, List.filterMap_append] at hack1 hack2 ⊢
      rw [hack1, hack2]
      rfl

/-- Witness for `run_acks_once_per_message`: a two-message batch — one
dedup-admitted request whose saves all fail, one whose fetch raises —
still yields exactly the two acknowledgements, in order. -/
theorem run_acks_once_per_message_witness :
    ∃ s' evs, runLoop 300 []
        [(⟨"d1", ⟨"u1", ["cfg", "ns"], "m"⟩⟩,
          ⟨0, .ok 100, 10, ⟨false, false, false⟩, ⟨true, true, true⟩⟩),
         (⟨"d2", ⟨"u2", ["cfg", "ns2"], "m"⟩⟩,
          ⟨5, .error (), 10, ⟨false, false, false⟩, ⟨false, false, false⟩⟩)] =
        .ok (s', evs) ∧
      ackIds evs = ["d1", "d2"] :=
  run_acks_once_per_message 300 [] _
    (by intro p hp; simp only [List.mem_cons] at hp
        rcases hp with h | h | h <;> first | (subst h; exact ⟨rfl, rfl, rfl⟩) | cases h)

/-- C4: when the preproc-artifact save raises a `RedisRegistryError`
(and the fit stages succeed), the model save (issued before it) and the
threshold save (issued after it) are both still attempted — the failure
is caught by its own try/except — nothing is rolled back (the trace has
no undo operation at all), and the request is acknowledged positively. -/
theorem preproc_save_failure_non_blocking (expiry : ℕ) (s : RStore) (d : Datum)
    (env : ReqEnv) (hst : noStageRaise env.stages)
    (hsv : env.saves.preprocErr = true)
    (hnew : (is_new_request expiry s env.time d.payload).1 = true)
    (n : ℕ) (hf : env.fetch = .ok n) (hmin : env.minTrainSize ≤ n) :
    runStep expiry s d env =
      .ok ((is_new_request expiry s env.time d.payload).2,
        [.fetchAttempt, .trainEntered,
         .saveAttempt .model (!env.saves.modelErr),
         .saveAttempt .preproc false,
         .saveAttempt .threshold (!env.saves.threshErr),
         .ack d.id]) := by
  obtain ⟨h1, h2, h3⟩ := hst
  have hts : train_and_save env.stages env.saves =
      .ok [.saveAttempt .model (!env.saves.modelErr),
           .saveAttempt .preproc false,
           .saveAttempt .threshold (!env.saves.threshErr)] := by
    unfold train_and_save
    rw [h1, h2, h3, hsv]
    rfl
  have hmin' : ¬ n < env.minTrainSize := not_lt.mpr hmin
  simp [runStep, hnew, hf, hmin', hts]

/-- Witness for `preproc_save_failure_non_blocking`: concrete admitted
request with 100 fetched rows, minimum 10, failing preproc save. -/
theorem preproc_save_failure_non_blocking_witness :
    runStep 300 [] ⟨"d1", ⟨"u", ["cfg", "ns"], "m"⟩⟩
        ⟨0, .ok 100, 10, ⟨false, false, false⟩, ⟨false, true, false⟩⟩ =
      .ok ((is_new_request 300 [] 0 ⟨"u", ["cfg", "ns"], "m"⟩).2,
        [.fetchAttempt, .trainEntered,
         .saveAttempt .model true, .saveAttempt .preproc false,
         .saveAttempt .threshold true, .ack "d1"]) :=
  preproc_save_failure_non_blocking 300 [] _ _ ⟨rfl, rfl, rfl⟩ rfl (by decide)
    100 rfl (by decide)

/-- C8: an admitted request whose fetched-and-cleaned frame has fewer
rows than `min_train_size` is acknowledged without the training pipeline
ever being entered: the trace is exactly fetch-then-ack, with no
`trainEntered` event. -/
theorem small_frame_skips_training (expiry : ℕ) (s : RStore) (d : Datum)
    (env : ReqEnv) (n : ℕ) (hf : env.fetch = .ok n)
    (hlt : n < env.minTrainSize) :
    ∃ s' evs, runStep expiry s d env = .ok (s', evs) ∧
      Event.trainEntered ∉ evs ∧ ackIds evs = [d.id] := by
  by_cases hnew : (is_new_request expiry s env.time d.payload).1 = false
  · exact ⟨(is_new_request expiry s env.time d.payload).2, [.ack d.id],
      by simp [runStep, hnew], by simp, rfl⟩
  · exact ⟨(is_new_request expiry s env.time d.payload).2,
      [.fetchAttempt, .ack d.id],
      by simp [runStep, hnew, hf, hlt], by simp, rfl⟩

/-- Witness for `small_frame_skips_training`: 5 fetched rows against a
minimum of 10 — the step never enters training and acknowledges once. -/
theorem small_frame_skips_training_witness :
    ∃ s' evs, runStep 300 [] ⟨"d1", ⟨"u", ["cfg", "ns"], "m"⟩⟩
        ⟨0, .ok 5, 10, ⟨true, true, true⟩, ⟨false, false, false⟩⟩ =
        .ok (s', evs) ∧
      Event.trainEntered ∉ evs ∧ ackIds evs = ["d1"] :=
  small_frame_skips_training 300 [] _ _ 5 rfl (by decide)

/-! ### C7: fetch failure modes degrade to an empty frame -/

theorem flatMap_nil_of_forall {α β : Type} (l : List α) (f : α → List β)
    (h : ∀ x, f x = []) : l.flatMap f = [] := by
  induction l with
  | nil => rfl
  | cons a l ih => simp [h, ih]

theorem query_range_limit_error (backend : PromBackend)
    (hb : ∀ a b st, backend a b st = .error ()) (a b : ℚ) (st : ℕ) :
    query_range_limit backend a b st = [] := by
  unfold query_range_limit
  split
  · rfl
  · rw [hb]

theorem query_range_limit_noRows (backend : PromBackend)
    (hb : ∀ a b st, backend a b st = .ok []) (a b : ℚ) (st : ℕ) :
    query_range_limit backend a b st = [] := by
  unfold query_range_limit
  split
  · rfl
  · rw [hb]

theorem query_metric_empty (backend : PromBackend) (labels : Option (List String))
    (startT endT : ℚ) (step : ℕ) (hse : startT ≤ endT)
    (hqrl : ∀ a b st, query_range_limit backend a b st = []) :
    query_metric backend labels startT endT step = .ok emptyFrame := by
  unfold query_metric
  rw [if_neg (not_lt.mpr hse)]
  have hqr : query_range backend startT endT step = [] := by
    unfold query_range
    exact flatMap_nil_of_forall _ _ (fun c => hqrl _ _ _)
  simp [hqr]

theorem prom_fetch_data_empty (backend : PromBackend) (hours : ℕ) (endT : ℚ)
    (labels : Option (List String))
    (hqrl : ∀ a b st, query_range_limit backend a b st = []) :
    prom_fetch_data backend hours endT labels = .ok emptyFrame := by
  have hse : endT - hours * 3600 ≤ endT := by
    have h0 : (0 : ℚ) ≤ hours * 3600 := by positivity
    linarith
  unfold prom_fetch_data
  rw [query_metric_empty backend labels _ endT 30 hse hqrl]
  rfl

/-- C7: both backend fetch paths return an empty frame — never an error
— when the backend is unreachable (every call fails), its configuration
is absent, or it returns no rows; the source dispatch returns an empty
frame for unsupported sources; and the run loop treats an empty fetched
frame exactly like any frame under the policy minimum — the identical
skip-and-acknowledge step. -/
theorem fetch_failure_empty_frame :
    (∀ backend hours endT druidConf oracle,
      fetch_data .prometheus none backend hours endT druidConf oracle =
        .ok emptyFrame) ∧
    (∀ promConf backend hours endT druidConf oracle,
      (∀ a b st, backend a b st = .error ()) →
      fetch_data .prometheus promConf backend hours endT druidConf oracle =
        .ok emptyFrame) ∧
    (∀ promConf backend hours endT druidConf oracle,
      (∀ a b st, backend a b st = .ok []) →
      fetch_data .prometheus promConf backend hours endT druidConf oracle =
        .ok emptyFrame) ∧
    (∀ promConf backend hours endT oracle,
      fetch_data .druid promConf backend hours endT none oracle = .ok emptyFrame) ∧
    (∀ promConf backend hours endT druidConf,
      fetch_data .druid promConf backend hours endT druidConf (.error ()) =
        .ok emptyFrame) ∧
    (∀ promConf backend hours endT druidConf oracle,
      fetch_data .unsupported promConf backend hours endT druidConf oracle =
        .ok emptyFrame) ∧
    (∀ expiry s d (env : ReqEnv) m, env.fetch = .ok 0 → 0 < env.minTrainSize →
      m < env.minTrainSize →
      runStep expiry s d env = runStep expiry s d { env with fetch := .ok m }) := by
  refine ⟨fun _ _ _ _ _ => rfl, ?_, ?_, ?_, ?_, fun _ _ _ _ _ _ => rfl, ?_⟩
  · intro promConf backend hours endT druidConf oracle hb
    cases promConf with
    | none => rfl
    | some srv =>
      show prom_fetch_data backend hours endT (some [rolloutHashLabel]) = .ok emptyFrame
      exact prom_fetch_data_empty backend hours endT _
        (query_range_limit_error backend hb)
  · intro promConf backend hours endT druidConf oracle hb
    cases promConf with
    | none => rfl
    | some srv =>
      show prom_fetch_data backend hours endT (some [rolloutHashLabel]) = .ok emptyFrame
      exact prom_fetch_data_empty backend hours endT _
        (query_range_limit_noRows backend hb)
  · intro promConf backend hours endT oracle
    rfl
  · intro promConf backend hours endT druidConf
    cases druidConf <;> rfl
  · intro expiry s d env m h0 hpos hm
    by_cases hnew : (is_new_request expiry s env.time d.payload).1 = false <;>
      simp [runStep, hnew, h0, hpos, hm]

/-- Witness for `fetch_failure_empty_frame`: an always-failing backend
yields an empty frame through the Prometheus path, and a 0-row fetch is
processed identically to a 5-row fetch when the minimum is 10. -/
theorem fetch_failure_empty_frame_witness :
    fetch_data .prometheus (some "srv") (fun _ _ _ => .error ()) 36 1000000
        (some "druid") (.error ()) = .ok emptyFrame ∧
      runStep 300 [] ⟨"d1", ⟨"u", ["cfg", "ns"], "m"⟩⟩
          ⟨0, .ok 0, 10, ⟨false, false, false⟩, ⟨false, false, false⟩⟩ =
        runStep 300 [] ⟨"d1", ⟨"u", ["cfg", "ns"], "m"⟩⟩
          ⟨0, .ok 5, 10, ⟨false, false, false⟩, ⟨false, false, false⟩⟩ :=
  ⟨fetch_failure_empty_frame.2.1 (some "srv") _ 36 1000000 (some "druid")
      (.error ()) (fun _ _ _ => rfl),
    fetch_failure_empty_frame.2.2.2.2.2.2 300 [] ⟨"d1", ⟨"u", ["cfg", "ns"], "m"⟩⟩
      ⟨0, .ok 0, 10, ⟨false, false, false⟩, ⟨false, false, false⟩⟩ 5 rfl
      (by decide) (by decide)⟩

end Numalogic
